import Mathlib

/-!
Shallow embedding of the order / inventory / review-rating logic of the
Farm-eccomerce backend (Express + Mongoose).

Products, orders and the review store are explicit state; the route
handlers and Mongoose hooks become state-passing functions whose error
responses are values of explicit error types.  JS numbers are modelled as
rationals; a JS number that may be NaN (the 0/0 arising in the review
save hook) is an Option rational, with none standing for NaN.
-/

namespace FarmShop

/-- JS Math.round for the non-negative values arising here: round half up.
Math.round(x) = floor(x + 0.5) for x ≥ 0. -/
def jsRound (q : ℚ) : ℤ := ⌊q + 1/2⌋

/-- Denormalized rating aggregate stored on a product
(models/Product.js, rating field).  average is an Option rational so
that the JS NaN produced by a 0/0 division can be represented (none). -/
structure Rating where
  average : Option ℚ
  count : ℕ
deriving DecidableEq, Repr

/-- A catalog product (models/Product.js); only the fields the order and
review logic reads or writes.  quantity is an integer because the
route-level decrement is an unconditional $inc that can drive it
negative. -/
structure Product where
  price : ℚ
  quantity : ℤ
  farmer : ℕ
  isAvailable : Bool
  isApproved : Bool
  isActive : Bool
  rating : Rating
deriving DecidableEq, Repr

/-- Order status enumeration (Order schema, status field). -/
inductive Status where
  | pending | confirmed | processing | shipped | delivered | cancelled
deriving DecidableEq, Repr

/-- One order line item (Order schema, items array): product reference,
quantity, price snapshot and farmer reference copied from the product. -/
structure LineItem where
  product : ℕ
  quantity : ℕ
  price : ℚ
  farmer : ℕ
deriving DecidableEq, Repr

/-- A persisted order (Order schema); only the fields the claims touch.
orderNumber and shippingAddress are pass-through data not read by any
of the verified logic and are omitted. -/
structure Order where
  buyer : ℕ
  items : List LineItem
  totalAmount : ℚ
  status : Status
  deliveryNotes : String
  farmerNotes : String
  isActive : Bool
deriving DecidableEq, Repr

/-- A review document (Review schema in the unnamed model file):
product reference, buyer reference, integer rating 1..5, isActive
soft-delete flag; id models the Mongo _id. -/
structure Review where
  id : ℕ
  product : ℕ
  buyer : ℕ
  rating : ℕ
  isActive : Bool
deriving DecidableEq, Repr

/-- One requested order item from the POST /api/orders body; quantity is
a natural number because express-validator enforces isInt on it (the
min-1 check is performed again explicitly below, mirroring the
validation chain). -/
structure ReqItem where
  productId : ℕ
  quantity : ℕ
deriving DecidableEq, Repr

/-- Error responses of the POST /api/orders handler. -/
inductive OrderError where
  | validationFailed
  | productUnavailable (pid : ℕ)
  | insufficientStock (pid : ℕ)
deriving DecidableEq, Repr

/-- Error responses of the PUT /api/orders/:id/status handler. -/
inductive UpdError where
  | validationFailed | orderNotFound | forbidden | invalidTransition
deriving DecidableEq, Repr

/-- Error responses of review submission (the unique index on
product and buyer). -/
inductive RevError where
  | duplicateReview
deriving DecidableEq, Repr

/-- The durable state: the product collection, the order collection
(keyed by id, with nextOrderId the next fresh id), and the review
collection. -/
structure St where
  products : ℕ → Option Product
  orders : ℕ → Option Order
  nextOrderId : ℕ
  reviews : List Review
  nextReviewId : ℕ

/-- Success test for an Except result. -/
def isOkE {ε α : Type} : Except ε α → Bool
  | .ok _ => true
  | .error _ => false

/-- Quantity of a product in a state (projection helper). -/
def quantityOf (s : St) (pid : ℕ) : Option ℤ :=
  (s.products pid).map (·.quantity)

/-- Rating aggregate of a product in a state (projection helper). -/
def ratingOf (s : St) (pid : ℕ) : Option Rating :=
  (s.products pid).map (·.rating)

/-- Pointwise update of the product map at one id. -/
def updProduct (ps : ℕ → Option Product) (pid : ℕ) (f : Product → Product) :
    ℕ → Option Product :=
  fun x => if x = pid then (ps pid).map f else ps x

/-- An external price edit on a product (e.g. the farmer product-update
route): only the price field of that product changes. -/
def setPrice (s : St) (pid : ℕ) (newPrice : ℚ) : St :=
  { s with products := updProduct s.products pid fun p => { p with price := newPrice } }

/-! ### Order creation (POST /api/orders, routes/orders.js lines 48-131) -/

/-- The validation loop of the handler (lines 64-93): for each requested
item fetch the product, fail with productUnavailable if missing or not
active/approved/available, fail with insufficientStock if its stock is
below the requested quantity, otherwise snapshot price and farmer into
a line item and accumulate the item total.  The loop only reads; no
write happens before it finishes. -/
def buildOrderItems (ps : ℕ → Option Product) :
    List ReqItem → Except OrderError (List LineItem × ℚ)
  | [] => .ok ([], 0)
  | i :: rest =>
    match ps i.productId with
    | none => .error (.productUnavailable i.productId)
    | some p =>
      if !p.isActive || !p.isApproved || !p.isAvailable then
        .error (.productUnavailable i.productId)
      else if p.quantity < (i.quantity : ℤ) then
        .error (.insufficientStock i.productId)
      else
        match buildOrderItems ps rest with
        | .error e => .error e
        | .ok (lines, total) =>
          .ok (⟨i.productId, i.quantity, p.price, p.farmer⟩ :: lines,
               p.price * (i.quantity : ℚ) + total)

/-- The request-validation middleware relevant to order items (items
array non-empty, every quantity at least 1) followed by the validation
loop.  This whole phase performs only reads. -/
def validatePhase (s : St) (items : List ReqItem) :
    Except OrderError (List LineItem × ℚ) :=
  if items.length < 1 then .error .validationFailed
  else if items.any fun i => decide (i.quantity < 1) then .error .validationFailed
  else buildOrderItems s.products items

/-- The post-save inventory update (lines 107-112): for each line item an
unconditional findByIdAndUpdate with $inc of minus the quantity. -/
def decrementStock (ps : ℕ → Option Product) (lines : List LineItem) :
    ℕ → Option Product :=
  lines.foldl (fun acc li =>
    updProduct acc li.product fun p => { p with quantity := p.quantity - (li.quantity : ℤ) }) ps

/-- The order document built by the handler (lines 96-103): buyer, the
snapshotted line items, the computed total, initial status pending. -/
def mkOrder (buyer : ℕ) (lines : List LineItem) (total : ℚ) (dn : String) : Order :=
  { buyer := buyer, items := lines, totalAmount := total, status := .pending,
    deliveryNotes := dn, farmerNotes := "", isActive := true }

/-- The write phase of the handler (lines 95-112): persist the new order,
then apply every inventory decrement. -/
def commitOrder (s : St) (buyer : ℕ) (lines : List LineItem) (total : ℚ)
    (dn : String) : St :=
  { s with
      orders := fun x =>
        if x = s.nextOrderId then some (mkOrder buyer lines total dn) else s.orders x,
      nextOrderId := s.nextOrderId + 1,
      products := decrementStock s.products lines }

/-- The complete POST /api/orders handler under sequential execution:
validation phase (reads only), then on success the write phase; every
error return happens before any write, so the state is returned
unchanged on error. -/
def createOrder (s : St) (buyer : ℕ) (items : List ReqItem) (dn : String) :
    St × Except OrderError Order :=
  match validatePhase s items with
  | .error e => (s, .error e)
  | .ok (lines, total) =>
    (commitOrder s buyer lines total dn, .ok (mkOrder buyer lines total dn))

/-- Two concurrent POST /api/orders requests under the interleaving in
which both handlers complete their awaited read/validation phase before
either performs its writes.  This schedule is permitted by the async
handlers because within each handler every write follows every read. -/
def createOrder2 (s : St) (b1 : ℕ) (it1 : List ReqItem) (b2 : ℕ)
    (it2 : List ReqItem) : St × Except OrderError Order × Except OrderError Order :=
  match validatePhase s it1, validatePhase s it2 with
  | .error e1, .error e2 => (s, .error e1, .error e2)
  | .error e1, .ok (l2, t2) =>
    (commitOrder s b2 l2 t2 "", .error e1, .ok (mkOrder b2 l2 t2 ""))
  | .ok (l1, t1), .error e2 =>
    (commitOrder s b1 l1 t1 "", .ok (mkOrder b1 l1 t1 ""), .error e2)
  | .ok (l1, t1), .ok (l2, t2) =>
    (commitOrder (commitOrder s b1 l1 t1 "") b2 l2 t2 "",
     .ok (mkOrder b1 l1 t1 ""), .ok (mkOrder b2 l2 t2 ""))

/-! ### Status updates (PUT /api/orders/:id/status, lines 202-292) -/

/-- The fixed transition table (lines 254-261), name and content as in
the source. -/
def validTransitions : Status → List Status
  | .pending => [.confirmed, .cancelled]
  | .confirmed => [.processing, .cancelled]
  | .processing => [.shipped, .cancelled]
  | .shipped => [.delivered]
  | .delivered => []
  | .cancelled => []

/-- The notes validation of the route (optional, max length 500). -/
def notesValid : Option String → Bool
  | some n => n.length ≤ 500
  | none => true

/-- The notes write of the route (lines 271-277): a present, non-empty
notes value goes to farmerNotes when the acting user is one of the
order's line-item farmers (the isFarmer check) and to deliveryNotes
otherwise; absent or empty notes touch neither field. -/
def applyNotes (o1 : Order) (isFarmer : Bool) : Option String → Order
  | some n =>
    if n ≠ "" then
      (if isFarmer then { o1 with farmerNotes := n }
       else { o1 with deliveryNotes := n })
    else o1
  | none => o1

/-- The PUT /api/orders/:id/status handler: validation middleware, order
lookup (missing or inactive gives orderNotFound), buyer/farmer
authorization (isBuyer and isFarmer of lines 241-244, inlined),
transition check against validTransitions, then the status write with
the notes routing of applyNotes. -/
def updateStatus (s : St) (oid actor : ℕ) (newStatus : Status)
    (notes : Option String) : St × Except UpdError Order :=
  if notesValid notes = false then (s, .error .validationFailed) else
  match s.orders oid with
  | none => (s, .error .orderNotFound)
  | some o =>
    if o.isActive = false then (s, .error .orderNotFound) else
    if (o.buyer == actor) = false ∧ (o.items.any fun li => li.farmer == actor) = false then
      (s, .error .forbidden)
    else if newStatus ∉ validTransitions o.status then (s, .error .invalidTransition) else
    let o2 := applyNotes { o with status := newStatus }
      (o.items.any fun li => li.farmer == actor) notes
    ({ s with orders := fun x => if x = oid then some o2 else s.orders x }, .ok o2)

/-! ### Review store and rating aggregation (Review schema file) -/

/-- Currently-active reviews of a product (the find with
product and isActive true used by both hooks). -/
def activeReviewsFor (reviews : List Review) (pid : ℕ) : List Review :=
  reviews.filter fun r => r.product == pid && r.isActive

/-- The reduce over ratings used by both hooks
(sum + review.rating starting from 0). -/
def totalRating (rs : List Review) : ℚ :=
  rs.foldl (fun sum r => sum + (r.rating : ℚ)) 0

/-- The average written by the save hook: totalRating / reviews.length
then Math.round(avg * 10) / 10.  With zero active reviews the JS
division is 0/0 = NaN and Math.round(NaN)/10 is NaN, modelled as none;
there is no empty-set guard in the save hook. -/
def savedAverage (a : List Review) : Option ℚ :=
  if a.length = 0 then none
  else some ((jsRound (totalRating a / (a.length : ℚ) * 10) : ℚ) / 10)

/-- Rating aggregate the save hook computes (lines 49-67 of the Review
schema file): recompute over active reviews with no empty-set guard
(so the average is the NaN none when no active review exists). -/
def recomputeOnSave (reviews : List Review) (pid : ℕ) : Rating :=
  let a := activeReviewsFor reviews pid
  ⟨savedAverage a, a.length⟩

/-- Mongoose validation of product.rating.average during product.save()
(models/Product.js, rating.average: min 0, max 5): the number cast
rejects NaN (none), and the min/max validators bound a real value. -/
def ratingSaveOk : Option ℚ → Bool
  | none => false
  | some q => decide (0 ≤ q) && decide (q ≤ 5)

/-- reviewSchema.post('save'): if the product exists, recompute over the
active reviews and write the aggregate back via product.save().  When
the computed average fails the schema validation — in particular the
0/0 NaN arising when zero active reviews remain — the save is rejected
and the product keeps its previous aggregate. -/
def savePostHook (s : St) (pid : ℕ) : St :=
  match s.products pid with
  | none => s
  | some p =>
    if ratingSaveOk (recomputeOnSave s.reviews pid).average then
      { s with products := fun x =>
          if x = pid then some { p with rating := recomputeOnSave s.reviews pid }
          else s.products x }
    else s

/-- reviewSchema.post('findOneAndDelete') as it actually executes: this
is query middleware, so this.product is undefined inside the hook;
Product.findById(undefined) is findOne with a null _id and matches no
product, hence the hook's guard fails and no recomputation ever
happens — the state is returned unchanged. -/
def deletePostHook (s : St) : St := s

/-- Review submission: the unique index on product and buyer rejects a
second review for the same pair (duplicateReview) before anything is
written; otherwise the review document (isActive true by default) is
inserted and the post-save hook runs. -/
def submitReview (s : St) (buyer pid rating : ℕ) :
    St × Except RevError Review :=
  if s.reviews.any fun r => r.product == pid && r.buyer == buyer then
    (s, .error .duplicateReview)
  else
    (savePostHook
      { s with reviews := s.reviews ++ [⟨s.nextReviewId, pid, buyer, rating, true⟩],
               nextReviewId := s.nextReviewId + 1 } pid,
     .ok ⟨s.nextReviewId, pid, buyer, rating, true⟩)

/-- Soft delete of a review: set isActive to false and save the review
document; saving runs the post-save hook (the schema has no separate
soft-delete hook). -/
def softDeleteReview (s : St) (rid : ℕ) : St :=
  match s.reviews.find? (fun r => r.id == rid) with
  | none => s
  | some r =>
    savePostHook { s with reviews := s.reviews.map (fun x => if x.id = rid then { x with isActive := false } else x) } r.product

/-- Physical removal of a review via findOneAndDelete: delete the
document, then run the post-delete hook — which, being query
middleware with this.product undefined, finds no product and leaves
every aggregate untouched. -/
def removeReview (s : St) (rid : ℕ) : St :=
  match s.reviews.find? (fun r => r.id == rid) with
  | none => s
  | some _ =>
    deletePostHook { s with reviews := s.reviews.filter (fun x => !(x.id == rid)) }

/-! ### Concrete fixtures used by witnesses and counterexamples -/

/-- A visible, approved, active product with one unit of stock. -/
def demoProduct : Product :=
  { price := 2, quantity := 1, farmer := 7, isAvailable := true,
    isApproved := true, isActive := true, rating := ⟨some 0, 0⟩ }

/-- State holding only demoProduct under id 1. -/
def demoState : St :=
  { products := fun x => if x = 1 then some demoProduct else none,
    orders := fun _ => none, nextOrderId := 0, reviews := [], nextReviewId := 0 }

/-- A product whose stored aggregate reflects one five-star review. -/
def revProduct : Product :=
  { price := 2, quantity := 3, farmer := 7, isAvailable := true,
    isApproved := true, isActive := true, rating := ⟨some 5, 1⟩ }

/-- State with revProduct under id 1 and its single active review
(id 0, buyer 2, rating 5). -/
def softDelState : St :=
  { products := fun x => if x = 1 then some revProduct else none,
    orders := fun _ => none, nextOrderId := 0,
    reviews := [⟨0, 1, 2, 5, true⟩], nextReviewId := 1 }

/-- State whose product 1 carries the schema-default aggregate of a
fresh product (average 0, count 0) and has no review documents. -/
def consistState : St :=
  { products := fun x =>
      if x = 1 then some { revProduct with rating := ⟨some 0, 0⟩ } else none,
    orders := fun _ => none, nextOrderId := 0, reviews := [], nextReviewId := 0 }

/-- A pending order (id 0 in wState): buyer 5, one line item of two
units supplied by farmer 7 at price 2. -/
def wOrder : Order :=
  { buyer := 5, items := [⟨1, 2, 2, 7⟩], totalAmount := 4, status := .pending,
    deliveryNotes := "", farmerNotes := "", isActive := true }

/-- State holding only wOrder under id 0. -/
def wState : St :=
  { products := fun _ => none,
    orders := fun x => if x = 0 then some wOrder else none,
    nextOrderId := 1, reviews := [], nextReviewId := 0 }

/-! ### Theorems -/

/-- Every line item produced by the validation loop snapshots the price
and farmer of the product it references, and the accumulated total is
the sum of price times quantity over the produced line items. -/
theorem buildOrderItems_spec (ps : ℕ → Option Product) :
    ∀ (items : List ReqItem) (lines : List LineItem) (total : ℚ),
      buildOrderItems ps items = .ok (lines, total) →
      total = (lines.map fun li => li.price * (li.quantity : ℚ)).sum ∧
      ∀ li ∈ lines, ∃ p, ps li.product = some p ∧
        li.price = p.price ∧ li.farmer = p.farmer := by
  intro items
  induction items with
  | nil =>
    intro lines total h
    simp only [buildOrderItems, Except.ok.injEq, Prod.mk.injEq] at h
    obtain ⟨h1, h2⟩ := h
    subst h1; subst h2
    simp
  | cons i rest ih =>
    intro lines total h
    rw [buildOrderItems] at h
    split at h
    · cases h
    · rename_i p hp
      split at h
      · cases h
      · split at h
        · cases h
        · split at h
          · cases h
          · rename_i lines' total' hr
            simp only [Except.ok.injEq, Prod.mk.injEq] at h
            obtain ⟨h1, h2⟩ := h
            obtain ⟨ihs, ihm⟩ := ih lines' total' hr
            subst h1; subst h2
            constructor
            · simp [ihs]
            · intro li hli
              rcases List.mem_cons.mp hli with hhd | hmem
              · subst hhd; exact ⟨p, hp, rfl, rfl⟩
              · exact ihm li hmem

/-- C1: for every successfully created order the stored totalAmount is
the sum of price times quantity over its line items, every line item's
price and farmer equal the referenced product's price and farmer in the
state createOrder read from, and a later price change on any product
leaves the stored orders (hence the order's line-item prices and its
totalAmount) untouched. -/
theorem createOrder_total_and_snapshot
    (s : St) (b : ℕ) (items : List ReqItem) (dn : String) (s' : St) (o : Order)
    (h : createOrder s b items dn = (s', .ok o)) :
    o.totalAmount = (o.items.map fun li => li.price * (li.quantity : ℚ)).sum ∧
    (∀ li ∈ o.items, ∃ p, s.products li.product = some p ∧
        li.price = p.price ∧ li.farmer = p.farmer) ∧
    (∀ pid np, (setPrice s' pid np).orders = s'.orders) := by
  unfold createOrder at h
  cases hv : validatePhase s items with
  | error e => rw [hv] at h; simp at h
  | ok pr =>
    obtain ⟨lines, total⟩ := pr
    rw [hv] at h
    simp only [Prod.mk.injEq, Except.ok.injEq] at h
    obtain ⟨hs, ho⟩ := h
    have hb : buildOrderItems s.products items = .ok (lines, total) := by
      unfold validatePhase at hv
      by_cases h1 : items.length < 1
      · rw [if_pos h1] at hv; cases hv
      · rw [if_neg h1] at hv
        by_cases h2 : items.any fun i => decide (i.quantity < 1)
        · rw [if_pos h2] at hv; cases hv
        · rw [if_neg h2] at hv; exact hv
    obtain ⟨hsum, hsnap⟩ := buildOrderItems_spec s.products items lines total hb
    subst ho
    refine ⟨hsum, hsnap, ?_⟩
    intro pid np
    rfl

/-- Witness for C1 at a concrete input: one item of quantity 1 for the
in-stock product 1 of demoState. -/
theorem createOrder_total_and_snapshot_witness :
    (mkOrder 5 [⟨1, 1, demoProduct.price, demoProduct.farmer⟩]
        (demoProduct.price * ((1 : ℕ) : ℚ) + 0) "").totalAmount =
      ((mkOrder 5 [⟨1, 1, demoProduct.price, demoProduct.farmer⟩]
        (demoProduct.price * ((1 : ℕ) : ℚ) + 0) "").items.map
          fun li => li.price * (li.quantity : ℚ)).sum ∧
    (∀ li ∈ (mkOrder 5 [⟨1, 1, demoProduct.price, demoProduct.farmer⟩]
        (demoProduct.price * ((1 : ℕ) : ℚ) + 0) "").items,
      ∃ p, demoState.products li.product = some p ∧
        li.price = p.price ∧ li.farmer = p.farmer) ∧
    (∀ pid np,
      (setPrice (commitOrder demoState 5 [⟨1, 1, demoProduct.price, demoProduct.farmer⟩]
          (demoProduct.price * ((1 : ℕ) : ℚ) + 0) "") pid np).orders =
      (commitOrder demoState 5 [⟨1, 1, demoProduct.price, demoProduct.farmer⟩]
          (demoProduct.price * ((1 : ℕ) : ℚ) + 0) "").orders) :=
  createOrder_total_and_snapshot demoState 5 [⟨1, 1⟩] ""
    (commitOrder demoState 5 [⟨1, 1, demoProduct.price, demoProduct.farmer⟩]
      (demoProduct.price * ((1 : ℕ) : ℚ) + 0) "")
    (mkOrder 5 [⟨1, 1, demoProduct.price, demoProduct.farmer⟩]
      (demoProduct.price * ((1 : ℕ) : ℚ) + 0) "") rfl

/-- C2: under the sequential semantics of the handler, order creation is
all-or-nothing: every failure (validation, unavailable product, or
insufficient stock on any requested item) returns before the order save
and before any decrement, leaving the state exactly as it was; and on
success the order is persisted together with the decrement of every one
of its line items. -/
theorem createOrder_all_or_nothing (s : St) (b : ℕ) (items : List ReqItem)
    (dn : String) :
    (∀ e s', createOrder s b items dn = (s', .error e) → s' = s) ∧
    (∀ o s', createOrder s b items dn = (s', .ok o) →
      s'.orders s.nextOrderId = some o ∧
      (∀ x, x ≠ s.nextOrderId → s'.orders x = s.orders x) ∧
      s'.products = decrementStock s.products o.items) := by
  constructor
  · intro e s' h
    unfold createOrder at h
    cases hv : validatePhase s items with
    | error e' =>
      rw [hv] at h
      simp only [Prod.mk.injEq] at h
      exact h.1.symm
    | ok pr =>
      obtain ⟨lines, total⟩ := pr
      rw [hv] at h
      simp at h
  · intro o s' h
    unfold createOrder at h
    cases hv : validatePhase s items with
    | error e' => rw [hv] at h; simp at h
    | ok pr =>
      obtain ⟨lines, total⟩ := pr
      rw [hv] at h
      simp only [Prod.mk.injEq, Except.ok.injEq] at h
      obtain ⟨hs, ho⟩ := h
      subst hs; subst ho
      refine ⟨by simp [commitOrder], ?_, ?_⟩
      · intro x hx
        simp [commitOrder, if_neg hx]
      · simp [commitOrder, mkOrder]

/-- Witness for C2 at concrete inputs: a request for two units of the
one-unit product 1 fails and leaves demoState unchanged; a request for
one unit succeeds and both persists the order and applies its
decrement. -/
theorem createOrder_all_or_nothing_witness :
    (createOrder demoState 5 [⟨1, 2⟩] "").1 = demoState ∧
    ((commitOrder demoState 5 [⟨1, 1, demoProduct.price, demoProduct.farmer⟩]
        (demoProduct.price * ((1 : ℕ) : ℚ) + 0) "").orders demoState.nextOrderId =
      some (mkOrder 5 [⟨1, 1, demoProduct.price, demoProduct.farmer⟩]
        (demoProduct.price * ((1 : ℕ) : ℚ) + 0) "") ∧
      (∀ x, x ≠ demoState.nextOrderId →
        (commitOrder demoState 5 [⟨1, 1, demoProduct.price, demoProduct.farmer⟩]
          (demoProduct.price * ((1 : ℕ) : ℚ) + 0) "").orders x = demoState.orders x) ∧
      (commitOrder demoState 5 [⟨1, 1, demoProduct.price, demoProduct.farmer⟩]
          (demoProduct.price * ((1 : ℕ) : ℚ) + 0) "").products =
        decrementStock demoState.products
          (mkOrder 5 [⟨1, 1, demoProduct.price, demoProduct.farmer⟩]
            (demoProduct.price * ((1 : ℕ) : ℚ) + 0) "").items) :=
  ⟨(createOrder_all_or_nothing demoState 5 [⟨1, 2⟩] "").1 (.insufficientStock 1)
      demoState rfl,
   (createOrder_all_or_nothing demoState 5 [⟨1, 1⟩] "").2
      (mkOrder 5 [⟨1, 1, demoProduct.price, demoProduct.farmer⟩]
        (demoProduct.price * ((1 : ℕ) : ℚ) + 0) "")
      (commitOrder demoState 5 [⟨1, 1, demoProduct.price, demoProduct.farmer⟩]
        (demoProduct.price * ((1 : ℕ) : ℚ) + 0) "") rfl⟩

/-- C3 fails on the code: a single createOrder whose items list contains
the same one-unit product twice passes the per-item validation (both
reads precede any decrement) and then decrements twice, driving the
stored quantity to minus one. -/
theorem createOrder_duplicate_item_negative_stock :
    quantityOf demoState 1 = some 1 ∧
    isOkE (createOrder demoState 5 [⟨1, 1⟩, ⟨1, 1⟩] "").2 = true ∧
    quantityOf (createOrder demoState 5 [⟨1, 1⟩, ⟨1, 1⟩] "").1 1 = some (-1) :=
  ⟨by decide, by decide, by decide⟩

/-- C4 fails on the code: two concurrent one-unit requests for the
one-unit product 1, interleaved so that both stock checks read before
either decrement writes, both succeed, and the final quantity is minus
one instead of zero. -/
theorem createOrder2_oversell :
    quantityOf demoState 1 = some 1 ∧
    isOkE (createOrder2 demoState 5 [⟨1, 1⟩] 6 [⟨1, 1⟩]).2.1 = true ∧
    isOkE (createOrder2 demoState 5 [⟨1, 1⟩] 6 [⟨1, 1⟩]).2.2 = true ∧
    quantityOf (createOrder2 demoState 5 [⟨1, 1⟩] 6 [⟨1, 1⟩]).1 1 = some (-1) :=
  ⟨by decide, by decide, by decide, by decide⟩

/-- Reduction of updateStatus once the order is found, active, and the
notes pass validation. -/
theorem updateStatus_eq (s : St) (oid actor : ℕ) (ns : Status)
    (notes : Option String) (o : Order)
    (h1 : s.orders oid = some o) (h2 : o.isActive = true)
    (h3 : notesValid notes = true) :
    updateStatus s oid actor ns notes =
      if (o.buyer == actor) = false ∧
          (o.items.any fun li => li.farmer == actor) = false then
        (s, .error .forbidden)
      else if ns ∉ validTransitions o.status then (s, .error .invalidTransition)
      else
        let o2 := applyNotes { o with status := ns }
          (o.items.any fun li => li.farmer == actor) notes
        ({ s with orders := fun x => if x = oid then some o2 else s.orders x },
         .ok o2) := by
  unfold updateStatus
  rw [h3, h1]
  simp [h2]

/-- C5: for an existing, active order and an authorized actor, a status
update succeeds exactly when the requested status is listed for the
order's current status in the validTransitions table, whose edges are
precisely those of the spec; any other requested transition fails with
invalidTransition (leaving the state unchanged), and the delivered and
cancelled rows are empty, making both states terminal. -/
theorem updateStatus_transition_table :
    (validTransitions .pending = [.confirmed, .cancelled] ∧
     validTransitions .confirmed = [.processing, .cancelled] ∧
     validTransitions .processing = [.shipped, .cancelled] ∧
     validTransitions .shipped = [.delivered] ∧
     validTransitions .delivered = [] ∧
     validTransitions .cancelled = []) ∧
    ∀ s oid actor ns notes o,
      s.orders oid = some o → o.isActive = true → notesValid notes = true →
      (o.buyer = actor ∨ ∃ li ∈ o.items, li.farmer = actor) →
      ((isOkE (updateStatus s oid actor ns notes).2 = true) ↔
        ns ∈ validTransitions o.status) ∧
      (ns ∉ validTransitions o.status →
        updateStatus s oid actor ns notes = (s, .error .invalidTransition)) := by
  refine ⟨⟨rfl, rfl, rfl, rfl, rfl, rfl⟩, ?_⟩
  intro s oid actor ns notes o h1 h2 h3 h4
  have hauth : ¬((o.buyer == actor) = false ∧
      (o.items.any fun li => li.farmer == actor) = false) := by
    rintro ⟨hb, hf⟩
    rcases h4 with hb' | ⟨li, hli, hfa⟩
    · rw [hb', beq_self_eq_true] at hb; cases hb
    · have hany : (o.items.any fun li => li.farmer == actor) = true :=
        List.any_eq_true.mpr ⟨li, hli, by simp [hfa]⟩
      rw [hany] at hf; cases hf
  rw [updateStatus_eq s oid actor ns notes o h1 h2 h3, if_neg hauth]
  by_cases hmem : ns ∈ validTransitions o.status
  · rw [if_neg (not_not_intro hmem)]
    exact ⟨by simp [isOkE, hmem], fun hc => absurd hmem hc⟩
  · rw [if_pos hmem]
    exact ⟨by simp [isOkE, hmem], fun _ => rfl⟩

/-- Witness for C5: in wState, the buyer (actor 5) may take pending
order 0 to confirmed but a direct jump to shipped is rejected with
invalidTransition. -/
theorem updateStatus_transition_table_witness :
    ((isOkE (updateStatus wState 0 5 .confirmed none).2 = true) ↔
      Status.confirmed ∈ validTransitions wOrder.status) ∧
    (Status.shipped ∉ validTransitions wOrder.status →
      updateStatus wState 0 5 .shipped none = (wState, .error .invalidTransition)) :=
  ⟨(updateStatus_transition_table.2 wState 0 5 .confirmed none wOrder rfl rfl rfl
      (Or.inl rfl)).1,
   (updateStatus_transition_table.2 wState 0 5 .shipped none wOrder rfl rfl rfl
      (Or.inl rfl)).2⟩

/-- C6: updating the status of an existing, active order fails with
forbidden, and leaves the whole state (hence every field of the order)
unchanged, whenever the acting user is neither the order's buyer nor
one of the farmers referenced in its line items. -/
theorem updateStatus_forbidden (s : St) (oid actor : ℕ) (ns : Status)
    (notes : Option String) (o : Order)
    (h1 : s.orders oid = some o) (h2 : o.isActive = true)
    (h3 : notesValid notes = true)
    (hb : o.buyer ≠ actor) (hf : ∀ li ∈ o.items, li.farmer ≠ actor) :
    updateStatus s oid actor ns notes = (s, .error .forbidden) := by
  rw [updateStatus_eq s oid actor ns notes o h1 h2 h3]
  rw [if_pos]
  constructor
  · exact beq_eq_false_iff_ne.mpr hb
  · rw [List.any_eq_false]
    intro li hli
    simp [hf li hli]

/-- Witness for C6: actor 9 is neither wOrder's buyer 5 nor its only
line-item farmer 7, so every status request on order 0 is forbidden and
wState is unchanged. -/
theorem updateStatus_forbidden_witness :
    updateStatus wState 0 9 .confirmed none = (wState, .error .forbidden) :=
  updateStatus_forbidden wState 0 9 .confirmed none wOrder rfl rfl rfl
    (by decide) (by decide)

/-- C10: in a successful status update carrying non-empty notes, the
notes land in farmerNotes whenever the actor is one of the order's
line-item farmers (in particular also when that actor is simultaneously
the buyer, since the farmer check is taken first) and in deliveryNotes
when the actor is the buyer and no line-item farmer; with absent or
empty notes, neither note field changes. -/
theorem updateStatus_notes_routing
    (s : St) (oid actor : ℕ) (ns : Status) (o : Order)
    (h1 : s.orders oid = some o) (h2 : o.isActive = true)
    (hmem : ns ∈ validTransitions o.status) :
    (∀ n : String, n ≠ "" → notesValid (some n) = true →
      (∃ li ∈ o.items, li.farmer = actor) →
      (updateStatus s oid actor ns (some n)).2 =
        .ok { o with status := ns, farmerNotes := n }) ∧
    (∀ n : String, n ≠ "" → notesValid (some n) = true →
      o.buyer = actor → (∀ li ∈ o.items, li.farmer ≠ actor) →
      (updateStatus s oid actor ns (some n)).2 =
        .ok { o with status := ns, deliveryNotes := n }) ∧
    ((o.buyer = actor ∨ ∃ li ∈ o.items, li.farmer = actor) →
      (updateStatus s oid actor ns none).2 = .ok { o with status := ns } ∧
      (updateStatus s oid actor ns (some "")).2 = .ok { o with status := ns }) := by
  refine ⟨?_, ?_, ?_⟩
  · intro n hne hnv hfarm
    obtain ⟨li, hli, hfa⟩ := hfarm
    have hany : (o.items.any fun li => li.farmer == actor) = true :=
      List.any_eq_true.mpr ⟨li, hli, by simp [hfa]⟩
    have hauth : ¬((o.buyer == actor) = false ∧
        (o.items.any fun li => li.farmer == actor) = false) := by
      rintro ⟨_, hf⟩; rw [hany] at hf; cases hf
    rw [updateStatus_eq s oid actor ns (some n) o h1 h2 hnv, if_neg hauth,
      if_neg (not_not_intro hmem)]
    simp [applyNotes, hne, hany]
  · intro n hne hnv hb hnof
    have hanyf : (o.items.any fun li => li.farmer == actor) = false := by
      rw [List.any_eq_false]
      intro li hli; simp [hnof li hli]
    have hauth : ¬((o.buyer == actor) = false ∧
        (o.items.any fun li => li.farmer == actor) = false) := by
      rintro ⟨hbf, _⟩; rw [hb, beq_self_eq_true] at hbf; cases hbf
    rw [updateStatus_eq s oid actor ns (some n) o h1 h2 hnv, if_neg hauth,
      if_neg (not_not_intro hmem)]
    simp [applyNotes, hne, hanyf]
  · intro h4
    have hauth : ¬((o.buyer == actor) = false ∧
        (o.items.any fun li => li.farmer == actor) = false) := by
      rintro ⟨hb, hf⟩
      rcases h4 with hb' | ⟨li, hli, hfa⟩
      · rw [hb', beq_self_eq_true] at hb; cases hb
      · have hany : (o.items.any fun li => li.farmer == actor) = true :=
          List.any_eq_true.mpr ⟨li, hli, by simp [hfa]⟩
        rw [hany] at hf; cases hf
    constructor
    · rw [updateStatus_eq s oid actor ns none o h1 h2 rfl, if_neg hauth,
        if_neg (not_not_intro hmem)]
      simp [applyNotes]
    · rw [updateStatus_eq s oid actor ns (some "") o h1 h2 rfl, if_neg hauth,
        if_neg (not_not_intro hmem)]
      simp [applyNotes]

/-- Witness for C10 in wState: farmer 7's notes go to farmerNotes, buyer
5's notes go to deliveryNotes, and absent notes change neither field. -/
theorem updateStatus_notes_routing_witness :
    (updateStatus wState 0 7 .confirmed (some "packed")).2 =
      .ok { wOrder with status := .confirmed, farmerNotes := "packed" } ∧
    (updateStatus wState 0 5 .confirmed (some "call at gate")).2 =
      .ok { wOrder with status := .confirmed, deliveryNotes := "call at gate" } ∧
    (updateStatus wState 0 5 .confirmed none).2 = .ok { wOrder with status := .confirmed } :=
  ⟨(updateStatus_notes_routing wState 0 7 .confirmed wOrder rfl rfl (by decide)).1
      "packed" (by decide) (by decide) ⟨⟨1, 2, 2, 7⟩, List.mem_singleton.mpr rfl, rfl⟩,
   (updateStatus_notes_routing wState 0 5 .confirmed wOrder rfl rfl (by decide)).2.1
      "call at gate" (by decide) (by decide) rfl (by decide),
   ((updateStatus_notes_routing wState 0 5 .confirmed wOrder rfl rfl
      (by decide)).2.2 (Or.inl rfl)).1⟩

/-- The foldl accumulation of ratings equals the list sum of their
casts. -/
theorem totalRating_eq_sum (a : List Review) :
    totalRating a = (a.map fun r => (r.rating : ℚ)).sum := by
  suffices h : ∀ (init : ℚ) (l : List Review),
      l.foldl (fun sum r => sum + (r.rating : ℚ)) init =
        init + (l.map fun r => (r.rating : ℚ)).sum by
    simpa [totalRating] using h 0 a
  intro init l
  induction l generalizing init with
  | nil => simp
  | cons x t ih => simp [ih]; ring

/-- The rounded mean of a non-empty list of ratings that all lie in the
review schema's range 1..5 passes the product schema's validation of
the average field (it is a real number between 0 and 5). -/
theorem ratingSaveOk_of_bounded (a : List Review) (hne : a ≠ [])
    (hb : ∀ x ∈ a, 1 ≤ x.rating ∧ x.rating ≤ 5) :
    ratingSaveOk (savedAverage a) = true := by
  have hlen : 0 < a.length := List.length_pos.mpr hne
  have hlenQ : (0 : ℚ) < (a.length : ℚ) := by exact_mod_cast hlen
  have hub : (a.map fun r => (r.rating : ℚ)).sum ≤ (a.length : ℚ) * 5 := by
    have h := List.sum_le_card_nsmul (a.map fun r => (r.rating : ℚ)) 5 ?_
    · rw [List.length_map, nsmul_eq_mul] at h
      exact h
    · intro x hx
      obtain ⟨r, hr, rfl⟩ := List.mem_map.mp hx
      exact_mod_cast (hb r hr).2
  have hlb : (a.length : ℚ) * 1 ≤ (a.map fun r => (r.rating : ℚ)).sum := by
    have h := List.card_nsmul_le_sum (a.map fun r => (r.rating : ℚ)) 1 ?_
    · rw [List.length_map, nsmul_eq_mul] at h
      exact h
    · intro x hx
      obtain ⟨r, hr, rfl⟩ := List.mem_map.mp hx
      exact_mod_cast (hb r hr).1
  have havg1 : (1 : ℚ) ≤ totalRating a / (a.length : ℚ) := by
    rw [le_div_iff hlenQ, totalRating_eq_sum]
    linarith
  have havg5 : totalRating a / (a.length : ℚ) ≤ 5 := by
    rw [div_le_iff hlenQ, totalRating_eq_sum]
    linarith
  have hfl_lb : (10 : ℤ) ≤ jsRound (totalRating a / (a.length : ℚ) * 10) := by
    simp only [jsRound]
    refine Int.le_floor.mpr ?_
    push_cast
    linarith
  have hfl_ub : jsRound (totalRating a / (a.length : ℚ) * 10) ≤ 50 := by
    have h1 : ((jsRound (totalRating a / (a.length : ℚ) * 10) : ℤ) : ℚ) ≤
        totalRating a / (a.length : ℚ) * 10 + 1/2 := by
      simp only [jsRound]
      exact Int.floor_le _
    have h2 : ((jsRound (totalRating a / (a.length : ℚ) * 10) : ℤ) : ℚ) < 51 := by
      linarith
    have h3 : jsRound (totalRating a / (a.length : ℚ) * 10) < 51 := by
      exact_mod_cast h2
    omega
  have hcastlb : (10 : ℚ) ≤ (jsRound (totalRating a / (a.length : ℚ) * 10) : ℚ) := by
    exact_mod_cast hfl_lb
  have hcastub : ((jsRound (totalRating a / (a.length : ℚ) * 10) : ℤ) : ℚ) ≤ 50 := by
    exact_mod_cast hfl_ub
  have h0 : (0 : ℚ) ≤ (jsRound (totalRating a / (a.length : ℚ) * 10) : ℚ) / 10 := by
    apply div_nonneg _ (by norm_num)
    linarith
  have h5 : ((jsRound (totalRating a / (a.length : ℚ) * 10) : ℤ) : ℚ) / 10 ≤ 5 := by
    rw [div_le_iff (by norm_num : (0:ℚ) < 10)]
    linarith
  have hA : savedAverage a =
      some ((jsRound (totalRating a / (a.length : ℚ) * 10) : ℚ) / 10) := by
    simp only [savedAverage]
    rw [if_neg (by omega)]
  rw [hA]
  simp only [ratingSaveOk, Bool.and_eq_true, decide_eq_true_eq]
  exact ⟨h0, h5⟩

/-- The save hook never changes the review store (whether or not the
product exists and whether or not the recomputed average is storable). -/
theorem savePostHook_reviews (s : St) (pid : ℕ) :
    (savePostHook s pid).reviews = s.reviews := by
  unfold savePostHook
  cases h : s.products pid with
  | none => rfl
  | some p =>
    dsimp only
    split
    · rfl
    · rfl

/-- The save hook never creates or deletes products. -/
theorem savePostHook_products_isSome (s : St) (pid x : ℕ) :
    ((savePostHook s pid).products x).isSome = (s.products x).isSome := by
  unfold savePostHook
  cases h : s.products pid with
  | none => rfl
  | some p =>
    dsimp only
    split
    · dsimp only
      by_cases hx : x = pid
      · subst hx
        rw [if_pos rfl, h]
        rfl
      · rw [if_neg hx]
    · rfl

/-- When the product exists and the recomputed average passes the
product schema validation, the save hook stores exactly the
recomputation over the active reviews. -/
theorem ratingOf_savePostHook (s : St) (pid : ℕ)
    (h : (s.products pid).isSome = true)
    (hok : ratingSaveOk (recomputeOnSave s.reviews pid).average = true) :
    ratingOf (savePostHook s pid) pid = some (recomputeOnSave s.reviews pid) := by
  obtain ⟨p, hp⟩ := Option.isSome_iff_exists.mp h
  unfold savePostHook ratingOf
  rw [hp]
  dsimp only
  rw [if_pos hok]
  simp

/-- When the recomputed average fails the product schema validation (in
particular the NaN of an empty active set), the save hook stores
nothing and the state is unchanged. -/
theorem savePostHook_stale (s : St) (pid : ℕ)
    (hbad : ratingSaveOk (recomputeOnSave s.reviews pid).average = false) :
    savePostHook s pid = s := by
  unfold savePostHook
  cases h : s.products pid with
  | none => rfl
  | some p =>
    dsimp only
    rw [if_neg (by simp [hbad])]

/-- ratingOf_savePostHook specialised to a state whose review store has
just been replaced (the shape produced by review submission and soft
deletion). -/
theorem ratingOf_savePostHook_set (s2 : St) (l : List Review) (pid : ℕ)
    (h : (s2.products pid).isSome = true)
    (hok : ratingSaveOk (recomputeOnSave l pid).average = true) :
    ratingOf (savePostHook { s2 with reviews := l } pid) pid =
      some (recomputeOnSave l pid) :=
  ratingOf_savePostHook { s2 with reviews := l } pid h hok

/-- savePostHook_stale specialised to a replaced review store. -/
theorem savePostHook_set_stale (s2 : St) (l : List Review) (pid : ℕ)
    (hbad : ratingSaveOk (recomputeOnSave l pid).average = false) :
    savePostHook { s2 with reviews := l } pid = { s2 with reviews := l } :=
  savePostHook_stale { s2 with reviews := l } pid hbad

/-- Physical removal never touches any product: the findOneAndDelete
hook finds no product to recompute. -/
theorem removeReview_products (s : St) (rid : ℕ) :
    (removeReview s rid).products = s.products := by
  unfold removeReview
  cases h : s.reviews.find? (fun r => r.id == rid) <;> rfl

/-- Soft deletion reduces to the save hook over the deactivated review
store. -/
theorem softDeleteReview_spec (s2 : St) (rid pid : ℕ) (r : Review)
    (hfind : s2.reviews.find? (fun x => x.id == rid) = some r)
    (hprod : r.product = pid) :
    softDeleteReview s2 rid = savePostHook
      { s2 with reviews := s2.reviews.map (fun x => if x.id = rid then { x with isActive := false } else x) } pid := by
  subst hprod
  unfold softDeleteReview
  rw [hfind]

/-- find? over an appended singleton whose element matches, when nothing
before it matches. -/
theorem find?_append_right {α : Type} (p : α → Bool) (l : List α) (r : α)
    (hl : ∀ x ∈ l, p x = false) (hr : p r = true) :
    (l ++ [r]).find? p = some r := by
  induction l with
  | nil => simp [List.find?, hr]
  | cons a t ih =>
    have ha : p a = false := hl a (List.mem_cons_self a t)
    simp only [List.cons_append, List.find?, ha]
    exact ih fun x hx => hl x (List.mem_cons_of_mem a hx)

/-- Deactivating a review id that occurs nowhere in a list leaves the
list unchanged. -/
theorem map_deact_eq_self (l : List Review) (rid : ℕ)
    (hfresh : ∀ x ∈ l, x.id ≠ rid) :
    (l.map fun x => if x.id = rid then { x with isActive := false } else x) = l := by
  induction l with
  | nil => rfl
  | cons a t ih =>
    have ha : a.id ≠ rid := hfresh a (List.mem_cons_self a t)
    simp only [List.map_cons, if_neg ha]
    rw [ih fun x hx => hfresh x (List.mem_cons_of_mem a hx)]

/-- Every element of a deactivated review store carries the rating of
an element of the original store. -/
theorem mem_map_deact_rating (l : List Review) (rid : ℕ) :
    ∀ x ∈ (l.map fun y => if y.id = rid then { y with isActive := false } else y),
      ∃ y ∈ l, x.rating = y.rating := by
  intro x hx
  obtain ⟨y, hy, rfl⟩ := List.mem_map.mp hx
  by_cases h : y.id = rid
  · rw [if_pos h]; exact ⟨y, hy, rfl⟩
  · rw [if_neg h]; exact ⟨y, hy, rfl⟩

/-- C7 fails on the code for both removal paths: softDelState's product
has aggregate average 5, count 1 and one active review; removing that
review physically triggers no recomputation (the findOneAndDelete hook
is query middleware whose this.product is undefined, so it finds no
product), and removing it by soft delete computes the 0/0 NaN average,
which the product schema validation rejects, so the save stores
nothing.  Both paths leave the stale aggregate average 5, count 1 in
place instead of resetting it to average 0, count 0 as the claim
requires when zero active reviews remain. -/
theorem removal_keeps_stale_aggregate :
    ratingOf softDelState 1 = some ⟨some 5, 1⟩ ∧
    activeReviewsFor (softDeleteReview softDelState 0).reviews 1 = [] ∧
    ratingOf (softDeleteReview softDelState 0) 1 = some ⟨some 5, 1⟩ ∧
    ratingOf (removeReview softDelState 0) 1 = some ⟨some 5, 1⟩ ∧
    some (⟨some 5, 1⟩ : Rating) ≠ some (⟨some 0, 0⟩ : Rating) :=
  ⟨rfl, rfl, rfl, rfl, by simp⟩

/-- C7 amended: a committed review save (the product exists, ratings lie
in the schema range 1..5) recomputes the aggregate over the
currently-active review set, which contains the committed review and is
therefore non-empty, and stores average = round(mean, 1 decimal) and
count = number of active reviews.  Removals do not behave as the claim
states: a physical delete via findOneAndDelete triggers no
recomputation at all (its query-middleware this.product is undefined,
so no product is found), and a soft delete recomputes and stores only
while at least one active review remains — when zero remain, the
hook's 0/0 NaN average fails the product schema validation and the
whole state is left unchanged, keeping the previous, now stale,
aggregate instead of resetting it to average 0, count 0. -/
theorem rating_hooks_amended :
    (∀ s buyer pid rt,
      (s.products pid).isSome = true →
      (∀ x ∈ s.reviews, 1 ≤ x.rating ∧ x.rating ≤ 5) →
      1 ≤ rt → rt ≤ 5 →
      isOkE (submitReview s buyer pid rt).2 = true →
      activeReviewsFor ((submitReview s buyer pid rt).1).reviews pid ≠ [] ∧
      ratingOf (submitReview s buyer pid rt).1 pid =
        some (recomputeOnSave ((submitReview s buyer pid rt).1).reviews pid)) ∧
    (∀ s rid, (removeReview s rid).products = s.products) ∧
    (∀ s rid r, s.reviews.find? (fun x => x.id == rid) = some r →
      activeReviewsFor (s.reviews.map
        (fun x => if x.id = rid then { x with isActive := false } else x)) r.product = [] →
      (softDeleteReview s rid).products = s.products) ∧
    (∀ s rid r, s.reviews.find? (fun x => x.id == rid) = some r →
      (s.products r.product).isSome = true →
      (∀ x ∈ s.reviews, 1 ≤ x.rating ∧ x.rating ≤ 5) →
      activeReviewsFor (s.reviews.map
        (fun x => if x.id = rid then { x with isActive := false } else x)) r.product ≠ [] →
      ratingOf (softDeleteReview s rid) r.product =
        some (recomputeOnSave ((softDeleteReview s rid).reviews) r.product)) := by
  refine ⟨?_, ?_, ?_, ?_⟩
  · intro s buyer pid rt hsome hb h1 h5 hok
    by_cases hdup : (s.reviews.any fun r => r.product == pid && r.buyer == buyer) = true
    · simp [submitReview, hdup, isOkE] at hok
    · unfold submitReview
      rw [if_neg hdup]
      have hs1 : (({ s with
          reviews := s.reviews ++ [⟨s.nextReviewId, pid, buyer, rt, true⟩],
          nextReviewId := s.nextReviewId + 1 } : St).products pid).isSome = true := hsome
      have hne : activeReviewsFor
          (s.reviews ++ [(⟨s.nextReviewId, pid, buyer, rt, true⟩ : Review)]) pid ≠ [] := by
        rw [activeReviewsFor, List.filter_append]
        simp [activeReviewsFor]
      have hbnd : ∀ x ∈ activeReviewsFor
          (s.reviews ++ [(⟨s.nextReviewId, pid, buyer, rt, true⟩ : Review)]) pid,
          1 ≤ x.rating ∧ x.rating ≤ 5 := by
        intro x hx
        have hx' := List.mem_of_mem_filter hx
        rcases List.mem_append.mp hx' with h | h
        · exact hb x h
        · rw [List.mem_singleton] at h
          subst h
          exact ⟨h1, h5⟩
      have hok1 : ratingSaveOk (recomputeOnSave
          (s.reviews ++ [(⟨s.nextReviewId, pid, buyer, rt, true⟩ : Review)]) pid).average
            = true :=
        ratingSaveOk_of_bounded _ hne hbnd
      have hrat := ratingOf_savePostHook
        { s with reviews := s.reviews ++ [⟨s.nextReviewId, pid, buyer, rt, true⟩],
                 nextReviewId := s.nextReviewId + 1 } pid hs1 hok1
      refine ⟨?_, ?_⟩
      · rw [savePostHook_reviews]
        exact hne
      · rw [hrat, savePostHook_reviews]
  · intro s rid
    exact removeReview_products s rid
  · intro s rid r hfind hempty
    rw [softDeleteReview_spec s rid r.product r hfind rfl]
    have hbad : ratingSaveOk (recomputeOnSave (s.reviews.map
        (fun x => if x.id = rid then { x with isActive := false } else x))
          r.product).average = false := by
      have hav : (recomputeOnSave (s.reviews.map
          (fun x => if x.id = rid then { x with isActive := false } else x))
            r.product).average = savedAverage (activeReviewsFor (s.reviews.map
              (fun x => if x.id = rid then { x with isActive := false } else x))
                r.product) := rfl
      rw [hav, hempty]
      rfl
    rw [savePostHook_set_stale _ _ _ hbad]
  · intro s rid r hfind hsome hb hne
    rw [softDeleteReview_spec s rid r.product r hfind rfl]
    have hbnd : ∀ x ∈ activeReviewsFor (s.reviews.map
        (fun x => if x.id = rid then { x with isActive := false } else x)) r.product,
        1 ≤ x.rating ∧ x.rating ≤ 5 := by
      intro x hx
      obtain ⟨y, hy, hxy⟩ := mem_map_deact_rating s.reviews rid x (List.mem_of_mem_filter hx)
      rw [hxy]
      exact hb y hy
    have hok2 : ratingSaveOk (recomputeOnSave (s.reviews.map
        (fun x => if x.id = rid then { x with isActive := false } else x))
          r.product).average = true :=
      ratingSaveOk_of_bounded _ hne hbnd
    rw [ratingOf_savePostHook_set s _ r.product hsome hok2, savePostHook_reviews]

/-- Witness for the amended C7: a fresh rating-5 commit against
consistState's product 1 stores the recomputation, and soft-deleting
softDelState's only review (zero active reviews remain) leaves every
product unchanged. -/
theorem rating_hooks_amended_witness :
    (activeReviewsFor ((submitReview consistState 2 1 5).1).reviews 1 ≠ [] ∧
      ratingOf (submitReview consistState 2 1 5).1 1 =
        some (recomputeOnSave ((submitReview consistState 2 1 5).1).reviews 1)) ∧
    (softDeleteReview softDelState 0).products = softDelState.products :=
  ⟨rating_hooks_amended.1 consistState 2 1 5 (by decide) (by decide) (by decide)
      (by decide) (by decide),
   rating_hooks_amended.2.2.1 softDelState 0 (⟨0, 1, 2, 5, true⟩ : Review) rfl
      (by decide)⟩

/-- C8 fails on the code even from a consistent start: product 1 of
consistState carries the fresh-product aggregate average 0, count 0
with no reviews; submitting a rating-5 review stores average 5,
count 1, and physically removing that same review triggers no
recomputation (the findOneAndDelete hook finds no product), so the
aggregate stays at average 5, count 1 instead of returning to its
pre-submission value average 0, count 0. -/
theorem review_roundtrip_not_restored :
    ratingOf consistState 1 = some ⟨some 0, 0⟩ ∧
    isOkE (submitReview consistState 2 1 5).2 = true ∧
    ratingOf (removeReview (submitReview consistState 2 1 5).1 0) 1 =
      some ⟨some 5, 1⟩ ∧
    some (⟨some 5, 1⟩ : Rating) ≠ some (⟨some 0, 0⟩ : Rating) := by
  refine ⟨rfl, by decide, ?_, by simp⟩
  have hstep : ratingOf (removeReview (submitReview consistState 2 1 5).1 0) 1 =
      ratingOf (submitReview consistState 2 1 5).1 1 := by
    unfold ratingOf
    rw [removeReview_products]
  rw [hstep]
  have hrec : recomputeOnSave
      (consistState.reviews ++ [⟨consistState.nextReviewId, 1, 2, 5, true⟩]) 1 =
      ⟨some 5, 1⟩ := by
    show recomputeOnSave [(⟨0, 1, 2, 5, true⟩ : Review)] 1 = ⟨some 5, 1⟩
    simp [recomputeOnSave, activeReviewsFor, savedAverage, totalRating, jsRound]
    norm_num
  have hok : ratingSaveOk (recomputeOnSave
      (consistState.reviews ++ [⟨consistState.nextReviewId, 1, 2, 5, true⟩]) 1).average
        = true := by
    rw [hrec]
    show ratingSaveOk (some 5) = true
    simp only [ratingSaveOk, Bool.and_eq_true, decide_eq_true_eq]
    norm_num
  show ratingOf (savePostHook
    { consistState with
        reviews := consistState.reviews ++ [⟨consistState.nextReviewId, 1, 2, 5, true⟩],
        nextReviewId := consistState.nextReviewId + 1 } 1) 1 = some ⟨some 5, 1⟩
  rw [ratingOf_savePostHook _ 1 (by decide) hok, hrec]

/-- C8 amended: the aggregate round-trips exactly only through the
soft-delete path and only from a consistent, non-empty starting state:
when the stored aggregate equals the save-hook recomputation over the
product's non-empty active review set, all stored ratings lie in the
schema range 1..5, the submitting buyer has no existing review on the
product and review ids are fresh, then submitting a review and then
soft-deleting it returns average and count exactly to their
pre-submission values; a physical removal via findOneAndDelete, by
contrast, performs no recomputation at all and leaves the
post-submission aggregate on every product. -/
theorem review_roundtrip_amended
    (s : St) (b pid rt : ℕ) (p : Product)
    (hp : s.products pid = some p)
    (hA : activeReviewsFor s.reviews pid ≠ [])
    (hcons : p.rating = recomputeOnSave s.reviews pid)
    (hb : ∀ x ∈ s.reviews, 1 ≤ x.rating ∧ x.rating ≤ 5)
    (hnodup : (s.reviews.any fun r => r.product == pid && r.buyer == b) = false)
    (hfresh : ∀ r ∈ s.reviews, r.id ≠ s.nextReviewId) :
    isOkE (submitReview s b pid rt).2 = true ∧
    ratingOf (softDeleteReview (submitReview s b pid rt).1 s.nextReviewId) pid =
      some p.rating ∧
    (removeReview (submitReview s b pid rt).1 s.nextReviewId).products =
      ((submitReview s b pid rt).1).products := by
  have hcond : ¬((s.reviews.any fun r => r.product == pid && r.buyer == b) = true) := by
    simp [hnodup]
  unfold submitReview
  rw [if_neg hcond]
  refine ⟨rfl, ?_, removeReview_products _ _⟩
  show ratingOf (softDeleteReview (savePostHook
    { s with reviews := s.reviews ++ [⟨s.nextReviewId, pid, b, rt, true⟩],
             nextReviewId := s.nextReviewId + 1 } pid) s.nextReviewId) pid = some p.rating
  have hfind : (savePostHook
      { s with reviews := s.reviews ++ [⟨s.nextReviewId, pid, b, rt, true⟩],
               nextReviewId := s.nextReviewId + 1 } pid).reviews.find?
        (fun x => x.id == s.nextReviewId) = some ⟨s.nextReviewId, pid, b, rt, true⟩ := by
    rw [savePostHook_reviews]
    exact find?_append_right _ _ _
      (fun x hx => beq_eq_false_iff_ne.mpr (hfresh x hx)) (by simp)
  rw [softDeleteReview_spec _ s.nextReviewId pid
    (⟨s.nextReviewId, pid, b, rt, true⟩ : Review) hfind rfl]
  have hmap : ((savePostHook
      { s with reviews := s.reviews ++ [⟨s.nextReviewId, pid, b, rt, true⟩],
               nextReviewId := s.nextReviewId + 1 } pid).reviews.map
        (fun x => if x.id = s.nextReviewId then { x with isActive := false } else x)) =
      s.reviews ++ [⟨s.nextReviewId, pid, b, rt, false⟩] := by
    rw [savePostHook_reviews]
    show ((s.reviews ++ [(⟨s.nextReviewId, pid, b, rt, true⟩ : Review)]).map
      (fun x => if x.id = s.nextReviewId then { x with isActive := false } else x)) = _
    rw [List.map_append, map_deact_eq_self s.reviews s.nextReviewId hfresh]
    simp
  rw [hmap]
  have hact : activeReviewsFor
      (s.reviews ++ [(⟨s.nextReviewId, pid, b, rt, false⟩ : Review)]) pid =
      activeReviewsFor s.reviews pid := by
    rw [activeReviewsFor, List.filter_append]
    simp [activeReviewsFor]
  have hrec : recomputeOnSave
      (s.reviews ++ [(⟨s.nextReviewId, pid, b, rt, false⟩ : Review)]) pid =
      recomputeOnSave s.reviews pid := by
    simp [recomputeOnSave, hact]
  have hok2 : ratingSaveOk (recomputeOnSave
      (s.reviews ++ [(⟨s.nextReviewId, pid, b, rt, false⟩ : Review)]) pid).average
        = true := by
    rw [hrec]
    exact ratingSaveOk_of_bounded _ hA (fun x hx => hb x (List.mem_of_mem_filter hx))
  have hsome2 : (((savePostHook
      { s with reviews := s.reviews ++ [⟨s.nextReviewId, pid, b, rt, true⟩],
               nextReviewId := s.nextReviewId + 1 } pid)).products pid).isSome = true := by
    rw [savePostHook_products_isSome]
    show (s.products pid).isSome = true
    rw [hp]; rfl
  rw [ratingOf_savePostHook_set _ _ pid hsome2 hok2, hrec, ← hcons]

/-- Witness for the amended C8: softDelState's product 1 has the
consistent non-empty aggregate average 5, count 1; buyer 4 submits a
rating-3 review and soft-deletes it, restoring average 5, count 1, and
a physical removal is proved to leave every product as it was after
submission. -/
theorem review_roundtrip_amended_witness :
    isOkE (submitReview softDelState 4 1 3).2 = true ∧
    ratingOf (softDeleteReview (submitReview softDelState 4 1 3).1
        softDelState.nextReviewId) 1 = some revProduct.rating ∧
    (removeReview (submitReview softDelState 4 1 3).1 softDelState.nextReviewId).products =
      ((submitReview softDelState 4 1 3).1).products :=
  review_roundtrip_amended softDelState 4 1 3 revProduct rfl (by decide)
    (by show (⟨some 5, 1⟩ : Rating) = recomputeOnSave softDelState.reviews 1
        show (⟨some 5, 1⟩ : Rating) = recomputeOnSave [(⟨0, 1, 2, 5, true⟩ : Review)] 1
        simp [recomputeOnSave, activeReviewsFor, savedAverage, totalRating, jsRound]
        norm_num)
    (by decide) (by decide) (by decide)

/-- C9: a second review by the same buyer on the same product is
rejected by the unique index with duplicateReview, leaving the whole
state (review store and rating aggregates) unchanged; and review
submission preserves the invariant that no two stored reviews share
their (product, buyer) pair. -/
theorem duplicate_review_rejected :
    (∀ s b pid rt,
      (s.reviews.any fun r => r.product == pid && r.buyer == b) = true →
      submitReview s b pid rt = (s, .error .duplicateReview)) ∧
    (∀ s b pid rt,
      (s.reviews.Pairwise fun a c => ¬(a.product = c.product ∧ a.buyer = c.buyer)) →
      ((submitReview s b pid rt).1.reviews.Pairwise
        fun a c => ¬(a.product = c.product ∧ a.buyer = c.buyer))) := by
  constructor
  · intro s b pid rt hdup
    unfold submitReview
    rw [if_pos hdup]
  · intro s b pid rt hpw
    by_cases hdup : (s.reviews.any fun r => r.product == pid && r.buyer == b) = true
    · unfold submitReview
      rw [if_pos hdup]
      exact hpw
    · unfold submitReview
      rw [if_neg hdup]
      show (savePostHook _ pid).reviews.Pairwise _
      rw [savePostHook_reviews]
      show (s.reviews ++ [(⟨s.nextReviewId, pid, b, rt, true⟩ : Review)]).Pairwise _
      rw [List.pairwise_append]
      have hdup' : (s.reviews.any fun r => r.product == pid && r.buyer == b) = false :=
        Bool.eq_false_iff.mpr hdup
      refine ⟨hpw, by simp, ?_⟩
      intro a ha c hc
      rw [List.mem_singleton] at hc
      subst hc
      rintro ⟨hpe, hbe⟩
      have := List.any_eq_false.mp hdup' a ha
      simp only [Bool.and_eq_true, beq_iff_eq] at this
      exact this ⟨hpe, hbe⟩

/-- Witness for C9: buyer 2 already reviewed product 1 in softDelState,
so a second submission is rejected and softDelState keeps its single
review, which trivially satisfies the uniqueness invariant. -/
theorem duplicate_review_rejected_witness :
    submitReview softDelState 2 1 4 = (softDelState, .error .duplicateReview) ∧
    ((submitReview softDelState 2 1 4).1.reviews.Pairwise
      fun a c => ¬(a.product = c.product ∧ a.buyer = c.buyer)) :=
  ⟨duplicate_review_rejected.1 softDelState 2 1 4 (by decide),
   duplicate_review_rejected.2 softDelState 2 1 4 (by simp [softDelState])⟩

end FarmShop
